import Mathlib

/-!
Shallow embedding of the parsing and aggregation engine of the
AppStore Ledger repository (the Apple App Store financial report parser),
together with proofs settling the frozen claims about it.

Modelling conventions:
* JavaScript strings are embedded as `List Char` (`Str`); all string
  operations used by the source (single-character `split`, `trim`,
  `includes`, `startsWith`, template-literal concatenation) are defined
  here as executable structural recursions with JS semantics.
* JS `number` is embedded as `Int` for the integer quantity field and as
  the exact rationals `Rat` for monetary amounts (`parseFloat` of the
  decimal literals occurring in reports is exact; IEEE rounding of huge
  values is outside the model).
* `parseInt(v, 10) || 0` and `parseFloat(v) || 0` factor through an
  `Option`-returning parser followed by `getD 0` (`NaN` and `-0` are the
  only falsy results of these parses, and both coerce to `0`).
* The thrown `Error` of `parseAppleReport` becomes `Except Str`.
* A JS `Map` (insertion-ordered, updated in place) is embedded as an
  association list updated by `upsert`; `Array.prototype.sort` with a
  comparator is embedded as `List.insertionSort` (a stable sort), and
  `localeCompare` is modelled as code-point lexicographic comparison.
* Fields of a partially built transaction that JS would leave `undefined`
  (their column is absent from the header) are modelled by the defaults
  `[]` / `0`. The retention sites (`!t.countryOfSale`,
  `t.saleOrReturn === 'S'`) treat `undefined` exactly as the default is
  treated here, and grouping by an all-`undefined` sku key forms one
  group just as grouping by the default `[]` does. The one place where
  `undefined` changes control flow rather than values — the by-product
  sort comparator `a.title.localeCompare(b.title)` throws `TypeError`
  when no `Title` column is mapped and the entry array has at least two
  elements — is modelled by the explicit `productSortThrows` error branch
  of `parseAppleReport`. The value-level `NaN` contamination of numeric
  fields on files missing numeric columns is outside the model.
-/

abbrev Str := List Char

/-- The character list of a string literal. -/
def chars (s : String) : Str := s.data

/-- Whitespace recognised by the model of `String.prototype.trim`. -/
def isWsChar (c : Char) : Bool := c = ' ' || c = '\t' || c = '\n' || c = '\r'

/-- Model of JS `trim`: drop whitespace at both ends. -/
def trimStr (s : Str) : Str := ((s.dropWhile isWsChar).reverse.dropWhile isWsChar).reverse

/-- Model of JS `s.split(c)` for a single-character separator. -/
def splitOnChar (c : Char) : Str → List Str
  | [] => [[]]
  | a :: as =>
    let r := splitOnChar c as
    if a = c then [] :: r
    else
      match r with
      | [] => [[a]]
      | g :: gs => (a :: g) :: gs

/-- Model of JS `hay.startsWith(needle)`. -/
def strStartsWith (needle hay : Str) : Bool := List.isPrefixOf needle hay

/-- Model of JS `hay.includes(needle)`. -/
def isSubstrOf (needle hay : Str) : Bool :=
  match hay with
  | [] => needle.isEmpty
  | _ :: t => List.isPrefixOf needle hay || isSubstrOf needle t

/-- Code-point lexicographic string comparison; the model of the
`localeCompare`-based sort comparators of the source. -/
def strLe : Str → Str → Bool
  | [], _ => true
  | _ :: _, [] => false
  | a :: as, b :: bs =>
    if a.toNat < b.toNat then true
    else if b.toNat < a.toNat then false
    else strLe as bs

def digitVal (c : Char) : Nat := c.toNat - '0'.toNat

def digitsToNat (ds : Str) : Nat := ds.foldl (fun n c => n * 10 + digitVal c) 0

/-- Split an optional leading sign, JS-number style. -/
def splitSign (s : Str) : Int × Str :=
  match s with
  | '-' :: rest => (-1, rest)
  | '+' :: rest => (1, rest)
  | _ => (1, s)

/-- Model of JS `parseInt(s, 10)`: `none` is `NaN` (no leading digits),
otherwise the integer denoted by the maximal leading digit run. -/
def jsParseInt (s : Str) : Option Int :=
  let s1 := s.dropWhile isWsChar
  let p := splitSign s1
  let ds := p.2.takeWhile Char.isDigit
  if ds.isEmpty then none else some (p.1 * (digitsToNat ds : Int))

/-- Model of JS `parseFloat(s)`: `none` is `NaN`, otherwise the exact
rational value of the maximal leading decimal literal (with optional
exponent part). -/
def jsParseFloat (s : Str) : Option Rat :=
  let s1 := s.dropWhile isWsChar
  let p := splitSign s1
  let ip := p.2.takeWhile Char.isDigit
  let r1 := p.2.dropWhile Char.isDigit
  let fp := match r1 with
    | '.' :: r => r.takeWhile Char.isDigit
    | _ => []
  let r2 := match r1 with
    | '.' :: r => r.dropWhile Char.isDigit
    | _ => r1
  if ip.isEmpty && fp.isEmpty then none
  else
    let mant : Rat := (digitsToNat ip : Rat) + (digitsToNat fp : Rat) / ((10 : Rat) ^ fp.length)
    let e : Int :=
      match r2 with
      | c :: r3 =>
        if c = 'e' ∨ c = 'E' then
          let q := splitSign r3
          let eds := q.2.takeWhile Char.isDigit
          if eds.isEmpty then 0 else q.1 * (digitsToNat eds : Int)
        else 0
      | [] => 0
    some ((p.1 : Rat) * mant * (10 : Rat) ^ e)

/-- `parseInt(value, 10) || 0` of the source: numeric parse failure
coerces to the integer 0. -/
def coerceQty (v : Str) : Int := (jsParseInt v).getD 0

/-- `parseFloat(value) || 0` of the source: numeric parse failure
coerces to 0. -/
def coerceMoney (v : Str) : Rat := (jsParseFloat v).getD 0

/-! ## Data model (from `src/lib/types.ts`) -/

structure ReportMetadata where
  vendorName : Str := []
  startDate : Str := []
  endDate : Str := []
  deriving Inhabited, DecidableEq

structure Transaction where
  transactionDate : Str := []
  settlementDate : Str := []
  appleIdentifier : Str := []
  sku : Str := []
  title : Str := []
  developerName : Str := []
  productTypeIdentifier : Str := []
  countryOfSale : Str := []
  quantity : Int := 0
  partnerShare : Rat := 0
  extendedPartnerShare : Rat := 0
  partnerShareCurrency : Str := []
  customerPrice : Rat := 0
  customerCurrency : Str := []
  saleOrReturn : Str := []
  promoCode : Str := []
  orderType : Str := []
  region : Str := []
  deriving Inhabited, DecidableEq

structure CountryBreakdown where
  countryOfSale : Str
  currency : Str
  quantity : Int
  proceeds : Rat
  deriving Inhabited, DecidableEq

structure ProductBreakdown where
  title : Str
  sku : Str
  quantity : Int
  proceedsByCurrency : List (Str × Rat)
  deriving Inhabited, DecidableEq

structure CurrencySummary where
  currency : Str
  totalProceeds : Rat
  totalQuantity : Int
  deriving Inhabited, DecidableEq

structure ReportSummary where
  byCountry : List CountryBreakdown
  byProduct : List ProductBreakdown
  byCurrency : List CurrencySummary
  totalTransactions : Nat
  deriving Inhabited, DecidableEq

structure ParsedReport where
  metadata : ReportMetadata
  transactions : List Transaction
  summary : ReportSummary
  deriving Inhabited, DecidableEq

structure ValidationResult where
  valid : Bool
  errors : List Str
  warnings : List Str
  deriving Inhabited, DecidableEq

/-! ## Column schema (`REQUIRED_COLUMNS`, `COLUMN_MAP`) -/

def REQUIRED_COLUMNS : List Str :=
  [chars "Country of Sale", chars "Partner Share Currency",
   chars "Quantity", chars "Extended Partner Share"]

/-- The logical field identifiers that `COLUMN_MAP` maps header text to. -/
inductive ColKey where
  | transactionDate | settlementDate | appleIdentifier | sku | title
  | developerName | productTypeIdentifier | countryOfSale | quantity
  | partnerShare | extendedPartnerShare | partnerShareCurrency
  | customerPrice | customerCurrency | saleOrReturn | promoCode
  | orderType | region
  deriving DecidableEq

/-- `COLUMN_MAP[header]` of the source: exact header text to field key,
unknown headers map to nothing. -/
def columnMap (h : Str) : Option ColKey :=
  if h = chars "Transaction Date" then some .transactionDate
  else if h = chars "Settlement Date" then some .settlementDate
  else if h = chars "Apple Identifier" then some .appleIdentifier
  else if h = chars "SKU" then some .sku
  else if h = chars "Title" then some .title
  else if h = chars "Developer Name" then some .developerName
  else if h = chars "Product Type Identifier" then some .productTypeIdentifier
  else if h = chars "Country of Sale" then some .countryOfSale
  else if h = chars "Quantity" then some .quantity
  else if h = chars "Partner Share" then some .partnerShare
  else if h = chars "Extended Partner Share" then some .extendedPartnerShare
  else if h = chars "Partner Share Currency" then some .partnerShareCurrency
  else if h = chars "Customer Price" then some .customerPrice
  else if h = chars "Customer Currency" then some .customerCurrency
  else if h = chars "Sale or Return" then some .saleOrReturn
  else if h = chars "Promo Code" then some .promoCode
  else if h = chars "Order Type" then some .orderType
  else if h = chars "Region" then some .region
  else none

/-- Assignment `transaction[mappedKey] = ...` of the row-decoding loop,
with the per-field coercions of the source. -/
def applyColumn (t : Transaction) (k : ColKey) (v : Str) : Transaction :=
  match k with
  | .transactionDate => { t with transactionDate := v }
  | .settlementDate => { t with settlementDate := v }
  | .appleIdentifier => { t with appleIdentifier := v }
  | .sku => { t with sku := v }
  | .title => { t with title := v }
  | .developerName => { t with developerName := v }
  | .productTypeIdentifier => { t with productTypeIdentifier := v }
  | .countryOfSale => { t with countryOfSale := v }
  | .quantity => { t with quantity := coerceQty v }
  | .partnerShare => { t with partnerShare := coerceMoney v }
  | .extendedPartnerShare => { t with extendedPartnerShare := coerceMoney v }
  | .partnerShareCurrency => { t with partnerShareCurrency := v }
  | .customerPrice => { t with customerPrice := coerceMoney v }
  | .customerCurrency => { t with customerCurrency := v }
  | .saleOrReturn => { t with saleOrReturn := v }
  | .promoCode => { t with promoCode := v }
  | .orderType => { t with orderType := v }
  | .region => { t with region := v }

/-- `row[i]?.trim() ?? ''` of the source: a missing cell reads as the
empty string. -/
def cellValue (row : List Str) (i : Nat) : Str := trimStr (row.getD i [])

/-- The header-indexed decoding loop of `parseTransaction`. A column
absent from the header leaves its field at the default (JS: `undefined`;
see the module comment and `productSortThrows` for the one
control-flow-relevant consequence). -/
def decodeFields (row headers : List Str) : Transaction :=
  headers.enum.foldl
    (fun t ih =>
      match columnMap ih.2 with
      | some k => applyColumn t k (cellValue row ih.1)
      | none => t)
    {}

/-- `parseTransaction` of the source: decode one split row against the
header list; drop the row when the decoded country of sale or partner
share currency is empty. -/
def parseTransaction (row headers : List Str) : Option Transaction :=
  let t := decodeFields row headers
  if t.countryOfSale = [] ∨ t.partnerShareCurrency = [] then none else some t

/-! ## Delimiter detection, metadata, and the two boundary scans -/

/-- The first five physical lines rejoined, the slice `detectDelimiter`
counts over. -/
def delimScanSlice (content : Str) : Str :=
  List.intercalate (chars "\n") ((splitOnChar '\n' content).take 5)

/-- `detectDelimiter` of the source: tab when tabs strictly outnumber
commas in the first five physical lines, comma otherwise. -/
def detectDelimiter (content : Str) : Char :=
  if (delimScanSlice content).count ',' < (delimScanSlice content).count '\t' then '\t' else ','

/-- `parseMetadata` of the source: key/value scan of the first five
(filtered) lines recognising exactly three keys. -/
def parseMetadata (lines : List Str) (delimiter : Char) : ReportMetadata :=
  (lines.take 5).foldl
    (fun md line =>
      let parts := splitOnChar delimiter line
      if 2 ≤ parts.length then
        let key := trimStr (parts.getD 0 [])
        let value := trimStr (parts.getD 1 [])
        if key = chars "Vendor Name" then { md with vendorName := value }
        else if key = chars "Start Date" then { md with startDate := value }
        else if key = chars "End Date" then { md with endDate := value }
        else md
      else md)
    {}

/-- The condition of the header scan: the line contains both literal
substrings `Transaction Date` and `Country of Sale`. -/
def headerLineCond (l : Str) : Bool :=
  isSubstrOf (chars "Transaction Date") l && isSubstrOf (chars "Country of Sale") l

/-- Index of the first line satisfying `headerLineCond`. -/
def findFirstHeader : List Str → Option Nat
  | [] => none
  | l :: ls => if headerLineCond l then some 0 else (findFirstHeader ls).map (· + 1)

/-- `findHeaderLine` of the source: first matching line among at most the
first ten lines; the JS `-1` sentinel is `none`. (The source's unused
`delimiter` parameter is omitted.) -/
def findHeaderLine (lines : List Str) : Option Nat := findFirstHeader (lines.take 10)

/-- The condition of the summary scan: the trimmed line starts with
`Country Of Sale` or `Country of Sale` and splits into at most five
fields. -/
def summaryLineCond (delimiter : Char) (l : Str) : Bool :=
  let t := trimStr l
  (strStartsWith (chars "Country Of Sale") t || strStartsWith (chars "Country of Sale") t) &&
    decide ((splitOnChar delimiter t).length ≤ 5)

/-- The backward loop of `findSummaryLine`: `n` is the number of
still-unvisited indices (the scan visits `n-1, n-2, ..., 0`). -/
def findSummaryAux (lines : List Str) (delimiter : Char) : Nat → Nat
  | 0 => lines.length
  | i + 1 => if summaryLineCond delimiter (lines.getD i []) then i else findSummaryAux lines delimiter i

/-- `findSummaryLine` of the source: last line satisfying
`summaryLineCond`, or the line count when none does. -/
def findSummaryLine (lines : List Str) (delimiter : Char) : Nat :=
  findSummaryAux lines delimiter lines.length

/-! ## Grouping (the JS `Map`-based aggregation passes) -/

section Grouping

variable {α β : Type} (key : α → Str) (init : α → β) (merge : β → α → β)

/-- One `map.get`/`map.set` step of an aggregation loop: update the entry
of `key a` in place, or append a fresh entry at the end (JS `Map`
insertion order). -/
def upsert (a : α) : List (Str × β) → List (Str × β)
  | [] => [(key a, init a)]
  | p :: ps => if p.1 = key a then (p.1, merge p.2 a) :: ps else p :: upsert a ps

/-- A whole aggregation loop over the transaction list. -/
def groupFold (ts : List α) : List (Str × β) :=
  ts.foldl (fun m a => upsert key init merge a m) []

/-- The distinct keys of `ts` in order of first occurrence. -/
def firstKeys (ts : List α) : List Str :=
  ts.foldl (fun ks a => if key a ∈ ks then ks else ks ++ [key a]) []

/-- All elements of `ts` whose key is `k`. -/
def groupOf (ts : List α) (k : Str) : List α :=
  ts.filter (fun a => decide (key a = k))

/-- The accumulated entry of key `k` (junk when `k` never occurs). -/
def entryOf [Inhabited β] (ts : List α) (k : Str) : β :=
  match groupOf key ts k with
  | [] => default
  | a :: as => as.foldl merge (init a)

end Grouping

/-- The grouping key of `aggregateByCountry`:
`` `${t.countryOfSale}-${t.partnerShareCurrency}` ``. -/
def countryKey (t : Transaction) : Str :=
  t.countryOfSale ++ chars "-" ++ t.partnerShareCurrency

def countryInit (t : Transaction) : CountryBreakdown :=
  { countryOfSale := t.countryOfSale, currency := t.partnerShareCurrency,
    quantity := t.quantity, proceeds := t.extendedPartnerShare }

def countryMerge (e : CountryBreakdown) (t : Transaction) : CountryBreakdown :=
  { e with quantity := e.quantity + t.quantity, proceeds := e.proceeds + t.extendedPartnerShare }

/-- The comparator `a.countryOfSale.localeCompare(b.countryOfSale)`. -/
def countryLE (a b : CountryBreakdown) : Prop := strLe a.countryOfSale b.countryOfSale = true

instance : DecidableRel countryLE := fun a b =>
  inferInstanceAs (Decidable (strLe a.countryOfSale b.countryOfSale = true))

/-- `aggregateByCountry` of the source. -/
def aggregateByCountry (ts : List Transaction) : List CountryBreakdown :=
  List.insertionSort countryLE ((groupFold countryKey countryInit countryMerge ts).map Prod.snd)

/-- The JS object update `pbc[cur] = (pbc[cur] || 0) + v` on the
insertion-ordered per-product currency map. -/
def addToAssoc : List (Str × Rat) → Str → Rat → List (Str × Rat)
  | [], k, v => [(k, v)]
  | p :: ps, k, v => if p.1 = k then (p.1, p.2 + v) :: ps else p :: addToAssoc ps k v

def productInit (t : Transaction) : ProductBreakdown :=
  { title := t.title, sku := t.sku, quantity := t.quantity,
    proceedsByCurrency := [(t.partnerShareCurrency, t.extendedPartnerShare)] }

def productMerge (e : ProductBreakdown) (t : Transaction) : ProductBreakdown :=
  { e with quantity := e.quantity + t.quantity,
           proceedsByCurrency := addToAssoc e.proceedsByCurrency t.partnerShareCurrency t.extendedPartnerShare }

def productLE (a b : ProductBreakdown) : Prop := strLe a.title b.title = true

instance : DecidableRel productLE := fun a b =>
  inferInstanceAs (Decidable (strLe a.title b.title = true))

/-- The array `Array.from(map.values())` that `aggregateByProduct`
sorts. -/
def productEntries (ts : List Transaction) : List ProductBreakdown :=
  (groupFold (fun t => t.sku) productInit productMerge ts).map Prod.snd

/-- `aggregateByProduct` of the source, as a total function on the
model's total `Transaction` records; the partiality of its comparator
(`a.title.localeCompare` throws on an unmapped Title column) is modelled
by `productSortThrows` inside `parseAppleReport`. -/
def aggregateByProduct (ts : List Transaction) : List ProductBreakdown :=
  List.insertionSort productLE (productEntries ts)

/-- Whether some trimmed header cell maps to the `title` field — exactly
the condition under which `transaction.title` is assigned (hence defined)
in every decoded row. -/
def titleColumnMapped (headers : List Str) : Bool :=
  headers.any (fun h => decide (columnMap h = some ColKey.title))

/-- The dynamic `TypeError` of the source's by-product sort
(`part_001:345`): `Array.prototype.sort` invokes the comparator
`a.title.localeCompare(b.title)` whenever the array has at least two
entries, and the call throws when `a.title` is `undefined`, i.e. when no
header cell maps the title field (title definedness is uniform across
rows because it depends only on the header, never on the row). -/
def productSortThrows (headers : List Str) (ts : List Transaction) : Bool :=
  !titleColumnMapped headers && decide (2 ≤ (productEntries ts).length)

def currencyInit (t : Transaction) : CurrencySummary :=
  { currency := t.partnerShareCurrency, totalProceeds := t.extendedPartnerShare,
    totalQuantity := t.quantity }

def currencyMerge (e : CurrencySummary) (t : Transaction) : CurrencySummary :=
  { e with totalQuantity := e.totalQuantity + t.quantity,
           totalProceeds := e.totalProceeds + t.extendedPartnerShare }

def currencyLE (a b : CurrencySummary) : Prop := strLe a.currency b.currency = true

instance : DecidableRel currencyLE := fun a b =>
  inferInstanceAs (Decidable (strLe a.currency b.currency = true))

/-- `aggregateByCurrency` of the source. -/
def aggregateByCurrency (ts : List Transaction) : List CurrencySummary :=
  List.insertionSort currencyLE
    ((groupFold (fun t => t.partnerShareCurrency) currencyInit currencyMerge ts).map Prod.snd)

/-! ## The main parser and the validator -/

/-- `content.split('\n').filter((l) => l.trim())` of the source. -/
def reportLines (content : Str) : List Str :=
  (splitOnChar '\n' content).filter (fun l => !(trimStr l).isEmpty)

/-- The trimmed header cells captured at the header line (empty when the
header is absent; the source never reads them in that case). -/
def reportHeaders (content : Str) : List Str :=
  match findHeaderLine (reportLines content) with
  | none => []
  | some i => (splitOnChar (detectDelimiter content) ((reportLines content).getD i [])).map trimStr

/-- The data-region lines: strictly between the header line and the
summary boundary. -/
def dataLinesOf (content : Str) : List Str :=
  match findHeaderLine (reportLines content) with
  | none => []
  | some h =>
    ((reportLines content).drop (h + 1)).take
      (findSummaryLine (reportLines content) (detectDelimiter content) - (h + 1))

/-- The transaction-collecting loop of `parseAppleReport`: decode each
data line, keep it only when decoding succeeds and the row is a sale. -/
def retainedTransactions (content : Str) : List Transaction :=
  (dataLinesOf content).filterMap (fun l =>
    match parseTransaction (splitOnChar (detectDelimiter content) l) (reportHeaders content) with
    | some t => if t.saleOrReturn = chars "S" then some t else none
    | none => none)

/-- The final assembly of `parseAppleReport`: metadata, retained
transactions, and the three aggregates plus the total count. -/
def buildReport (metadata : ReportMetadata) (ts : List Transaction) : ParsedReport :=
  { metadata := metadata, transactions := ts,
    summary :=
      { byCountry := aggregateByCountry ts, byProduct := aggregateByProduct ts,
        byCurrency := aggregateByCurrency ts, totalTransactions := ts.length } }

/-- `parseAppleReport` of the source; both thrown errors — the explicit
header-not-found `Error` and the dynamic `TypeError` raised by the
by-product sort on an unmapped title — are the `.error` branch. -/
def parseAppleReport (content : Str) : Except Str ParsedReport :=
  match findHeaderLine (reportLines content) with
  | none => .error (chars "Invalid report format: could not find data headers")
  | some _ =>
    if productSortThrows (reportHeaders content) (retainedTransactions content) = true then
      .error (chars "TypeError: undefined title in by-product sort comparator")
    else
      .ok (buildReport (parseMetadata (reportLines content) (detectDelimiter content))
            (retainedTransactions content))

/-- Whether `parseAppleReport` succeeds. -/
def parseOk (content : Str) : Bool :=
  match parseAppleReport content with
  | .ok _ => true
  | .error _ => false

/-- The parsed report, defaulting on the error branch (used only to state
concrete evaluations). -/
def parsedOr (content : Str) : ParsedReport :=
  match parseAppleReport content with
  | .ok r => r
  | .error _ => default

/-- `validateReport` of the source. -/
def validateReport (content : Str) (delimiter : Char) : ValidationResult :=
  let lines := (splitOnChar '\n' content).filter (fun l => !(trimStr l).isEmpty)
  if lines.length < 5 then
    { valid := false, errors := [chars "File appears to be empty or too short"], warnings := [] }
  else
    match findHeaderLine lines with
    | none =>
      { valid := false,
        errors := [chars "Could not find transaction data headers. Is this an Apple App Store financial report?"],
        warnings := [] }
    | some headerLine =>
      let headers := (splitOnChar delimiter (lines.getD headerLine [])).map trimStr
      let errors :=
        (REQUIRED_COLUMNS.filter (fun req => !headers.contains req)).map
          (fun req => chars "Missing required column: " ++ req)
      let metadata := parseMetadata lines delimiter
      let warnings :=
        (if metadata.vendorName.isEmpty then [chars "Vendor name not found in report"] else []) ++
          (if metadata.startDate.isEmpty || metadata.endDate.isEmpty then
            [chars "Reporting period dates not found"] else [])
      { valid := errors.isEmpty, errors := errors, warnings := warnings }

/-- The grouping key as reconstructed from a byCountry entry (the entry
stores the first group member's country and currency, whose dash-join is
the map key). -/
def ekey (e : CountryBreakdown) : Str := e.countryOfSale ++ chars "-" ++ e.currency

/-! ## Concrete inputs used by witnesses and counterexamples -/

/-- A well-formed comma-delimited report (the specification's own worked
scenario: two US/USD sale rows). -/
def exAcme : Str := chars "Vendor Name,Acme Inc\nStart Date,01/01/2025\nEnd Date,01/31/2025\nTransaction Date,Country of Sale,Partner Share Currency,Quantity,Extended Partner Share,Sale or Return\n1/5/2025,US,USD,2,1.40,S\n1/6/2025,US,USD,1,0.70,S"

/-- A parseable report whose two rows have distinct (country, currency)
pairs with the same dash-joined grouping key: (A-B, C) and (A, B-C). -/
def exC1 : Str := chars "Transaction Date,Country of Sale,Partner Share Currency,Quantity,Extended Partner Share,Sale or Return\n1/1/2025,A-B,C,1,10,S\n1/1/2025,A,B-C,2,20,S"

/-- Transactions with distinct (country, currency) pairs but identical
dash-joined keys. -/
def exC7a : Transaction :=
  { countryOfSale := chars "X-Y", partnerShareCurrency := chars "Z",
    quantity := 1, extendedPartnerShare := 5, saleOrReturn := chars "S" }

def exC7b : Transaction :=
  { countryOfSale := chars "X", partnerShareCurrency := chars "Y-Z",
    quantity := 2, extendedPartnerShare := 7, saleOrReturn := chars "S" }

/-- Line array whose last line is a narrow summary header. -/
def exC2 : List Str := [chars "header junk", chars "Country of Sale,US,1"]

/-- A report whose header line is the second non-blank line. -/
def exC3 : Str := chars "Vendor Name,Acme\nTransaction Date,Country of Sale,Partner Share Currency,Quantity,Extended Partner Share,Sale or Return\n1/1/2025,US,USD,1,2.00,S"

/-- Tab-delimited content for delimiter detection. -/
def exC4 : Str := chars "a\tb\tc\nd\te\tf"

/-- A report containing a return-type row (indicator R) between two sale
rows. -/
def exC5 : Str := chars "Transaction Date,Country of Sale,Partner Share Currency,Quantity,Extended Partner Share,Sale or Return\n1/1/2025,US,USD,2,3,S\n1/2/2025,US,USD,1,4,R\n1/3/2025,DE,EUR,5,6,S"

/-- A report containing a row with an empty Country of Sale cell among
otherwise-valid rows. -/
def exC6 : Str := chars "Transaction Date,Country of Sale,Partner Share Currency,Quantity,Extended Partner Share,Sale or Return\n1/1/2025,US,USD,2,3,S\n1/2/2025,,USD,1,4,S\n1/3/2025,DE,EUR,5,6,S"

/-- A report mixing sale rows, a return row, and a row with an empty
currency cell. -/
def exC9 : Str := chars "Transaction Date,Country of Sale,Partner Share Currency,Quantity,Extended Partner Share,Sale or Return\n1/1/2025,US,USD,2,3,S\n1/2/2025,US,USD,1,4,R\n1/3/2025,FR,,1,1,S\n1/4/2025,DE,EUR,5,6,S"

/-- A header-found report lacking a Title column whose two retained rows
carry distinct SKUs: the source's by-product sort throws on the
undefined title. -/
def exC3cex : Str := chars "Transaction Date,Country of Sale,Partner Share Currency,SKU,Sale or Return\n1/1/2025,US,USD,app1,S\n1/2/2025,US,USD,app2,S"

/-- Another header-found, Title-less report with two distinct SKUs among
its retained rows. -/
def exC10cex : Str := chars "Transaction Date,Country of Sale,Partner Share Currency,SKU,Sale or Return\n1/1/2025,DE,EUR,sku1,S\n1/2/2025,DE,EUR,sku2,S"

/-- A report whose header line lacks the required Quantity, Partner Share
Currency, and Extended Partner Share columns, yet still contains the two
header-scan substrings. -/
def exC10 : Str := chars "Transaction Date,Country of Sale,Sale or Return\n1/1/2025,US,S\n1/2/2025,DE,S"

/-! ## General-purpose helper lemmas -/

theorem getD_take {γ : Type} (l : List γ) (n i : Nat) (d : γ) (h : i < n) :
    (l.take n).getD i d = l.getD i d := by
  induction l generalizing n i with
  | nil => simp
  | cons a l ih =>
    cases n with
    | zero => exact absurd h (by omega)
    | succ m =>
      cases i with
      | zero => rfl
      | succ j => simpa using ih m j (by omega)

theorem length_filterMap_eq_countP {γ δ : Type} (f : γ → Option δ) (p : γ → Bool)
    (l : List γ) (h : ∀ x ∈ l, (f x).isSome = p x) :
    (l.filterMap f).length = l.countP p := by
  induction l with
  | nil => rfl
  | cons a l ih =>
    have ha := h a (by simp)
    have ih' := ih (fun x hx => h x (by simp [hx]))
    cases hfa : f a with
    | none =>
      rw [hfa] at ha
      simp [List.filterMap_cons, hfa, List.countP_cons, ← ha, ih']
    | some b =>
      rw [hfa] at ha
      simp [List.filterMap_cons, hfa, List.countP_cons, ← ha, ih']

theorem mapCongrOn {γ δ : Type} {f g : γ → δ} {l : List γ} (h : ∀ a ∈ l, f a = g a) :
    l.map f = l.map g := by
  induction l with
  | nil => rfl
  | cons a l ih =>
    simp only [List.map_cons, h a (by simp), ih (fun x hx => h x (by simp [hx]))]

theorem sum_filter_split {γ M : Type} [AddCommMonoid M] (p : γ → Bool) (f : γ → M)
    (l : List γ) :
    ((l.filter p).map f).sum + ((l.filter (fun a => !p a)).map f).sum = (l.map f).sum := by
  induction l with
  | nil => simp
  | cons a l ih =>
    by_cases hp : p a
    · rw [show (a :: l).filter p = a :: l.filter p by simp [List.filter_cons, hp],
        show (a :: l).filter (fun a => !p a) = l.filter (fun a => !p a) by
          simp [List.filter_cons, hp]]
      simp only [List.map_cons, List.sum_cons]
      rw [add_assoc, ih]
    · rw [show (a :: l).filter p = l.filter p by simp [List.filter_cons, hp],
        show (a :: l).filter (fun a => !p a) = a :: l.filter (fun a => !p a) by
          simp [List.filter_cons, hp]]
      simp only [List.map_cons, List.sum_cons]
      rw [add_left_comm, ih]

/-! ## Lexicographic-order lemmas for the sort comparators -/

theorem strLe_total (a : Str) : ∀ b : Str, strLe a b = true ∨ strLe b a = true := by
  induction a with
  | nil => intro b; left; rfl
  | cons x xs ih =>
    intro b
    cases b with
    | nil => right; rfl
    | cons y ys =>
      by_cases h1 : x.toNat < y.toNat
      · left; simp [strLe, h1]
      · by_cases h2 : y.toNat < x.toNat
        · right; simp [strLe, h2]
        · rcases ih ys with h | h
          · left; simp [strLe, h1, h2, h]
          · right; simp [strLe, h1, h2, h]

theorem strLe_trans {a b c : Str} (h₁ : strLe a b = true) (h₂ : strLe b c = true) :
    strLe a c = true := by
  induction a generalizing b c with
  | nil => rfl
  | cons x xs ih =>
    cases b with
    | nil => simp [strLe] at h₁
    | cons y ys =>
      cases c with
      | nil => simp [strLe] at h₂
      | cons z zs =>
        simp only [strLe] at h₁ h₂ ⊢
        by_cases hxy : x.toNat < y.toNat
        · by_cases hyz : y.toNat < z.toNat
          · simp [show x.toNat < z.toNat by omega]
          · by_cases hzy : z.toNat < y.toNat
            · rw [if_neg hyz, if_pos hzy] at h₂; exact absurd h₂ (by simp)
            · simp [show x.toNat < z.toNat by omega]
        · by_cases hyx : y.toNat < x.toNat
          · rw [if_neg hxy, if_pos hyx] at h₁; exact absurd h₁ (by simp)
          · rw [if_neg hxy, if_neg hyx] at h₁
            by_cases hyz : y.toNat < z.toNat
            · simp [show x.toNat < z.toNat by omega]
            · by_cases hzy : z.toNat < y.toNat
              · rw [if_neg hyz, if_pos hzy] at h₂; exact absurd h₂ (by simp)
              · rw [if_neg hyz, if_neg hzy] at h₂
                simp only [show ¬x.toNat < z.toNat by omega, if_neg,
                  show ¬z.toNat < x.toNat by omega]
                simp [ih h₁ h₂]

instance : IsTotal CountryBreakdown countryLE := ⟨fun _ _ => strLe_total _ _⟩
instance : IsTrans CountryBreakdown countryLE := ⟨fun _ _ _ => strLe_trans⟩
instance : IsTotal ProductBreakdown productLE := ⟨fun _ _ => strLe_total _ _⟩
instance : IsTrans ProductBreakdown productLE := ⟨fun _ _ _ => strLe_trans⟩
instance : IsTotal CurrencySummary currencyLE := ⟨fun _ _ => strLe_total _ _⟩
instance : IsTrans CurrencySummary currencyLE := ⟨fun _ _ _ => strLe_trans⟩

/-! ## Boundary-scan characterizations -/

theorem findFirstHeader_cons (l : Str) (ls : List Str) :
    findFirstHeader (l :: ls) =
      if headerLineCond l = true then some 0 else (findFirstHeader ls).map (· + 1) := rfl

theorem findFirstHeader_eq_none {ls : List Str} :
    findFirstHeader ls = none ↔ ∀ l ∈ ls, headerLineCond l = false := by
  induction ls with
  | nil => simp [findFirstHeader]
  | cons l ls ih =>
    by_cases h : headerLineCond l <;> simp [findFirstHeader_cons, h, ih]

theorem findFirstHeader_eq_some {ls : List Str} {i : Nat} (h : findFirstHeader ls = some i) :
    i < ls.length ∧ headerLineCond (ls.getD i []) = true ∧
      ∀ j < i, headerLineCond (ls.getD j []) = false := by
  induction ls generalizing i with
  | nil => simp [findFirstHeader] at h
  | cons l ls ih =>
    by_cases hc : headerLineCond l
    · rw [findFirstHeader_cons, if_pos hc] at h
      cases h
      exact ⟨by simp, by simpa using hc, by omega⟩
    · rw [findFirstHeader_cons, if_neg (by simpa using hc), Option.map_eq_some'] at h
      obtain ⟨j, hj, rfl⟩ := h
      obtain ⟨hlen, hcond, hmin⟩ := ih hj
      refine ⟨by simpa using hlen, by simpa using hcond, ?_⟩
      intro m hm
      cases m with
      | zero => simpa using hc
      | succ m' => simpa using hmin m' (by omega)

theorem findSummaryAux_succ (lines : List Str) (d : Char) (m : Nat) :
    findSummaryAux lines d (m + 1) =
      if summaryLineCond d (lines.getD m []) = true then m else findSummaryAux lines d m := rfl

theorem findSummaryAux_spec (lines : List Str) (d : Char) :
    ∀ n, n ≤ lines.length →
      (findSummaryAux lines d n = lines.length ∧
        ∀ j < n, summaryLineCond d (lines.getD j []) = false) ∨
      (findSummaryAux lines d n < n ∧
        summaryLineCond d (lines.getD (findSummaryAux lines d n) []) = true ∧
        ∀ j, findSummaryAux lines d n < j → j < n →
          summaryLineCond d (lines.getD j []) = false) := by
  intro n
  induction n with
  | zero => intro _; left; exact ⟨rfl, by omega⟩
  | succ m ih =>
    intro hn
    by_cases hc : summaryLineCond d (lines.getD m []) = true
    · right
      rw [findSummaryAux_succ, if_pos hc]
      exact ⟨by omega, hc, fun j h1 h2 => by omega⟩
    · have hm : m ≤ lines.length := by omega
      rw [findSummaryAux_succ, if_neg hc]
      rcases ih hm with ⟨heq, hall⟩ | ⟨hlt, hcond, hmax⟩
      · left
        refine ⟨heq, ?_⟩
        intro j hj
        rcases Nat.lt_or_ge j m with hjm | hjm
        · exact hall j hjm
        · have : j = m := by omega
          subst this
          simpa using hc
      · right
        refine ⟨by omega, hcond, ?_⟩
        intro j h1 h2
        rcases Nat.lt_or_ge j m with hjm | hjm
        · exact hmax j h1 hjm
        · have : j = m := by omega
          subst this
          simpa using hc

/-! ## Grouping lemmas: the `Map`-fold computes per-key accumulations -/

section GroupingLemmas

variable {α β : Type} (key : α → Str) (init : α → β) (merge : β → α → β)

theorem groupFold_snoc (ts : List α) (a : α) :
    groupFold key init merge (ts ++ [a]) =
      upsert key init merge a (groupFold key init merge ts) := by
  simp [groupFold, List.foldl_append]

theorem firstKeys_snoc (ts : List α) (a : α) :
    firstKeys key (ts ++ [a]) =
      if key a ∈ firstKeys key ts then firstKeys key ts
      else firstKeys key ts ++ [key a] := by
  simp [firstKeys, List.foldl_append]

theorem mem_foldl_keys (k : Str) (ts : List α) :
    ∀ ks : List Str,
      (k ∈ ts.foldl (fun ks a => if key a ∈ ks then ks else ks ++ [key a]) ks ↔
        k ∈ ks ∨ ∃ t ∈ ts, key t = k) := by
  induction ts with
  | nil => intro ks; simp
  | cons t ts ih =>
    intro ks
    simp only [List.foldl_cons]
    by_cases h : key t ∈ ks
    · rw [if_pos h, ih]
      constructor
      · rintro (hk | ⟨t', ht', rfl⟩)
        · exact Or.inl hk
        · exact Or.inr ⟨t', by simp [ht'], rfl⟩
      · rintro (hk | ⟨t', ht', rfl⟩)
        · exact Or.inl hk
        · rcases List.mem_cons.mp ht' with rfl | ht''
          · exact Or.inl h
          · exact Or.inr ⟨t', ht'', rfl⟩
    · rw [if_neg h, ih]
      constructor
      · rintro (hk | ⟨t', ht', rfl⟩)
        · rcases List.mem_append.mp hk with hk' | hk'
          · exact Or.inl hk'
          · exact Or.inr ⟨t, by simp, (List.mem_singleton.mp hk').symm⟩
        · exact Or.inr ⟨t', by simp [ht'], rfl⟩
      · rintro (hk | ⟨t', ht', rfl⟩)
        · exact Or.inl (List.mem_append_left _ hk)
        · rcases List.mem_cons.mp ht' with rfl | ht''
          · exact Or.inl (List.mem_append_right _ (by simp))
          · exact Or.inr ⟨t', ht'', rfl⟩

theorem mem_firstKeys {k : Str} {ts : List α} :
    k ∈ firstKeys key ts ↔ ∃ t ∈ ts, key t = k := by
  rw [firstKeys, mem_foldl_keys]
  simp

theorem nodup_foldl_keys (ts : List α) :
    ∀ ks : List Str, ks.Nodup →
      (ts.foldl (fun ks a => if key a ∈ ks then ks else ks ++ [key a]) ks).Nodup := by
  induction ts with
  | nil => intro ks h; simpa using h
  | cons t ts ih =>
    intro ks h
    simp only [List.foldl_cons]
    by_cases hm : key t ∈ ks
    · rw [if_pos hm]; exact ih ks h
    · rw [if_neg hm]
      exact ih _ (by simp [List.nodup_append, h, hm])

theorem nodup_firstKeys (ts : List α) : (firstKeys key ts).Nodup :=
  nodup_foldl_keys key ts [] List.nodup_nil

theorem upsert_nil (a : α) : upsert key init merge a [] = [(key a, init a)] := rfl

theorem upsert_cons (a : α) (p : Str × β) (ps : List (Str × β)) :
    upsert key init merge a (p :: ps) =
      if p.1 = key a then (p.1, merge p.2 a) :: ps else p :: upsert key init merge a ps := rfl

theorem upsert_not_memKeys (a : α) (g : Str → β) :
    ∀ ks : List Str, key a ∉ ks →
      upsert key init merge a (ks.map (fun k => (k, g k))) =
        ks.map (fun k => (k, g k)) ++ [(key a, init a)] := by
  intro ks
  induction ks with
  | nil => intro _; rfl
  | cons k ks ih =>
    intro h
    have hne : k ≠ key a := fun hk => h (by simp [hk])
    simp only [List.map_cons, upsert_cons, if_neg hne, List.cons_append]
    rw [ih (fun hk => h (by simp [hk]))]

theorem upsert_memKeys (a : α) (g : Str → β) :
    ∀ ks : List Str, ks.Nodup → key a ∈ ks →
      upsert key init merge a (ks.map (fun k => (k, g k))) =
        ks.map (fun k => (k, if k = key a then merge (g k) a else g k)) := by
  intro ks
  induction ks with
  | nil => intro _ h; cases h
  | cons k ks ih =>
    intro hnd hm
    by_cases hk : k = key a
    · subst hk
      have h1 : upsert key init merge a ((key a :: ks).map (fun k => (k, g k))) =
          (key a, merge (g (key a)) a) :: ks.map (fun k => (k, g k)) := by
        simp [upsert_cons]
      rw [h1, List.map_cons, if_pos rfl]
      congr 1
      apply mapCongrOn
      intro k' hk'
      have hne : k' ≠ key a := fun h => (List.nodup_cons.mp hnd).1 (h ▸ hk')
      rw [if_neg hne]
    · have hm' : key a ∈ ks := by
        rcases List.mem_cons.mp hm with h | h
        · exact absurd h.symm hk
        · exact h
      have h1 : upsert key init merge a ((k :: ks).map (fun k => (k, g k))) =
          (k, g k) :: upsert key init merge a (ks.map (fun k => (k, g k))) := by
        simp [upsert_cons, hk]
      rw [h1, List.map_cons, if_neg hk, ih (List.nodup_cons.mp hnd).2 hm']

theorem groupOf_append (ts₁ ts₂ : List α) (k : Str) :
    groupOf key (ts₁ ++ ts₂) k = groupOf key ts₁ k ++ groupOf key ts₂ k := by
  simp [groupOf, List.filter_append]

theorem groupOf_singleton (a : α) (k : Str) :
    groupOf key [a] k = if key a = k then [a] else [] := by
  by_cases h : key a = k <;> simp [groupOf, List.filter, h]

theorem groupOf_eq_nil_iff {ts : List α} {k : Str} :
    groupOf key ts k = [] ↔ ∀ t ∈ ts, key t ≠ k := by
  simp [groupOf, List.filter_eq_nil_iff]

theorem groupFold_eq [Inhabited β] (ts : List α) :
    groupFold key init merge ts =
      (firstKeys key ts).map (fun k => (k, entryOf key init merge ts k)) := by
  induction ts using List.reverseRecOn with
  | nil => rfl
  | append_singleton ts a ih =>
    rw [groupFold_snoc, ih, firstKeys_snoc]
    by_cases hm : key a ∈ firstKeys key ts
    · rw [if_pos hm, upsert_memKeys key init merge a _ _ (nodup_firstKeys key ts) hm]
      apply mapCongrOn
      intro k hk
      dsimp only
      by_cases hka : k = key a
      · obtain ⟨t₀, g, hg⟩ : ∃ t₀ g, groupOf key ts k = t₀ :: g := by
          rcases hgo : groupOf key ts k with _ | ⟨t₀, g⟩
          · rw [groupOf_eq_nil_iff] at hgo
            obtain ⟨t, ht, hkt⟩ := mem_firstKeys key |>.mp hk
            exact absurd hkt (hgo t ht)
          · exact ⟨t₀, g, rfl⟩
        have hgrow : groupOf key (ts ++ [a]) k = t₀ :: (g ++ [a]) := by
          rw [groupOf_append, hg, groupOf_singleton, if_pos hka.symm]; rfl
        rw [if_pos hka]
        simp only [entryOf, hg, hgrow, List.foldl_append, List.foldl_cons, List.foldl_nil]
      · have hgrow : groupOf key (ts ++ [a]) k = groupOf key ts k := by
          rw [groupOf_append, groupOf_singleton, if_neg (fun h => hka h.symm), List.append_nil]
        rw [if_neg hka]
        simp only [entryOf, hgrow]
    · rw [if_neg hm, upsert_not_memKeys key init merge a _ _ hm, List.map_append]
      congr 1
      · apply mapCongrOn
        intro k hk
        dsimp only
        have hka : k ≠ key a := fun h => hm (h ▸ hk)
        have hgrow : groupOf key (ts ++ [a]) k = groupOf key ts k := by
          rw [groupOf_append, groupOf_singleton, if_neg (fun h => hka h.symm), List.append_nil]
        simp only [entryOf, hgrow]
      · have hnil : groupOf key ts (key a) = [] := by
          rw [groupOf_eq_nil_iff]
          intro t ht hkt
          exact hm (mem_firstKeys key |>.mpr ⟨t, ht, hkt⟩)
        have hgrow : groupOf key (ts ++ [a]) (key a) = [a] := by
          rw [groupOf_append, hnil, groupOf_singleton, if_pos rfl, List.nil_append]
        simp [entryOf, hgrow]

end GroupingLemmas

/-! ## Per-aggregate entry characterizations -/

theorem mem_groupOf {γ : Type} (key : γ → Str) {a : γ} {ts : List γ} {k : Str} :
    a ∈ groupOf key ts k ↔ a ∈ ts ∧ key a = k := by
  simp [groupOf, List.mem_filter]

theorem foldl_countryMerge (l : List Transaction) :
    ∀ e : CountryBreakdown,
      l.foldl countryMerge e =
        { countryOfSale := e.countryOfSale, currency := e.currency,
          quantity := e.quantity + (l.map (fun t => t.quantity)).sum,
          proceeds := e.proceeds + (l.map (fun t => t.extendedPartnerShare)).sum } := by
  induction l with
  | nil => intro e; simp
  | cons t l ih =>
    intro e
    simp only [List.foldl_cons, ih, countryMerge, List.map_cons, List.sum_cons]
    congr 1 <;> rw [add_assoc]

theorem foldl_currencyMerge (l : List Transaction) :
    ∀ e : CurrencySummary,
      l.foldl currencyMerge e =
        { currency := e.currency,
          totalProceeds := e.totalProceeds + (l.map (fun t => t.extendedPartnerShare)).sum,
          totalQuantity := e.totalQuantity + (l.map (fun t => t.quantity)).sum } := by
  induction l with
  | nil => intro e; simp
  | cons t l ih =>
    intro e
    simp only [List.foldl_cons, ih, currencyMerge, List.map_cons, List.sum_cons]
    congr 1 <;> rw [add_assoc]

theorem entryOf_country {ts : List Transaction} {k : Str} {t₀ : Transaction}
    {g : List Transaction} (h : groupOf countryKey ts k = t₀ :: g) :
    entryOf countryKey countryInit countryMerge ts k =
      { countryOfSale := t₀.countryOfSale, currency := t₀.partnerShareCurrency,
        quantity := ((t₀ :: g).map (fun t => t.quantity)).sum,
        proceeds := ((t₀ :: g).map (fun t => t.extendedPartnerShare)).sum } := by
  simp only [entryOf, h, foldl_countryMerge, countryInit, List.map_cons, List.sum_cons]

theorem entryOf_currency {ts : List Transaction} {k : Str} {t₀ : Transaction}
    {g : List Transaction} (h : groupOf (fun t => t.partnerShareCurrency) ts k = t₀ :: g) :
    entryOf (fun t => t.partnerShareCurrency) currencyInit currencyMerge ts k =
      { currency := t₀.partnerShareCurrency,
        totalProceeds := ((t₀ :: g).map (fun t => t.extendedPartnerShare)).sum,
        totalQuantity := ((t₀ :: g).map (fun t => t.quantity)).sum } := by
  simp only [entryOf, h, foldl_currencyMerge, currencyInit, List.map_cons, List.sum_cons]

theorem aggregateByCountry_perm (ts : List Transaction) :
    (aggregateByCountry ts).Perm
      ((firstKeys countryKey ts).map
        (fun k => entryOf countryKey countryInit countryMerge ts k)) := by
  have h1 := List.perm_insertionSort countryLE
    ((groupFold countryKey countryInit countryMerge ts).map Prod.snd)
  have h2 : (groupFold countryKey countryInit countryMerge ts).map Prod.snd =
      (firstKeys countryKey ts).map
        (fun k => entryOf countryKey countryInit countryMerge ts k) := by
    rw [groupFold_eq, List.map_map]
    rfl
  rw [← h2]
  exact h1

theorem aggregateByCurrency_perm (ts : List Transaction) :
    (aggregateByCurrency ts).Perm
      ((firstKeys (fun t => t.partnerShareCurrency) ts).map
        (fun k => entryOf (fun t => t.partnerShareCurrency) currencyInit currencyMerge ts k)) := by
  have h1 := List.perm_insertionSort currencyLE
    ((groupFold (fun t => t.partnerShareCurrency) currencyInit currencyMerge ts).map Prod.snd)
  have h2 : (groupFold (fun t => t.partnerShareCurrency) currencyInit currencyMerge ts).map
        Prod.snd =
      (firstKeys (fun t => t.partnerShareCurrency) ts).map
        (fun k => entryOf (fun t => t.partnerShareCurrency) currencyInit currencyMerge ts k) := by
    rw [groupFold_eq, List.map_map]
    rfl
  rw [← h2]
  exact h1

/-- Summing group-by-group over a duplicate-free key cover equals summing
over the whole list. -/
theorem sum_groups {γ M : Type} [AddCommMonoid M] (key : γ → Str) :
    ∀ ks : List Str, ks.Nodup → ∀ (ts : List γ) (f : γ → M),
      (∀ t ∈ ts, key t ∈ ks) →
      (ks.map (fun k => ((ts.filter (fun t => decide (key t = k))).map f).sum)).sum =
        (ts.map f).sum := by
  intro ks
  induction ks with
  | nil =>
    intro _ ts f h
    have : ts = [] := by
      cases ts with
      | nil => rfl
      | cons t ts => exact absurd (h t (by simp)) (by simp)
    subst this
    simp
  | cons k ks ih =>
    intro hnd ts f h
    have hk_not : k ∉ ks := (List.nodup_cons.mp hnd).1
    have hnd' : ks.Nodup := (List.nodup_cons.mp hnd).2
    set ts' := ts.filter (fun t => !decide (key t = k)) with hts'
    have hcover' : ∀ t ∈ ts', key t ∈ ks := by
      intro t ht
      have := List.mem_filter.mp ht
      have hne : key t ≠ k := by simpa using this.2
      rcases List.mem_cons.mp (h t this.1) with h' | h'
      · exact absurd h' hne
      · exact h'
    have hrw : ∀ k' ∈ ks,
        ts.filter (fun t => decide (key t = k')) = ts'.filter (fun t => decide (key t = k')) := by
      intro k' hk'
      have hne : k' ≠ k := fun hkk => hk_not (hkk ▸ hk')
      rw [hts', List.filter_filter]
      apply List.filter_congr
      intro t _
      by_cases hkt : key t = k'
      · simp [hkt, hne]
      · simp [hkt]
    have hmapeq :
        (ks.map (fun k' => ((ts.filter (fun t => decide (key t = k'))).map f).sum)) =
        (ks.map (fun k' => ((ts'.filter (fun t => decide (key t = k'))).map f).sum)) := by
      apply mapCongrOn
      intro k' hk'
      rw [hrw k' hk']
    simp only [List.map_cons, List.sum_cons]
    rw [hmapeq, ih hnd' ts' f hcover']
    rw [hts']
    exact sum_filter_split (fun t => decide (key t = k)) f ts

/-! ## Parser inversion and row-retention lemmas -/

theorem parse_ok_eq {content : Str} {r : ParsedReport}
    (h : parseAppleReport content = Except.ok r) :
    r = buildReport (parseMetadata (reportLines content) (detectDelimiter content))
          (retainedTransactions content) := by
  unfold parseAppleReport at h
  cases hf : findHeaderLine (reportLines content) with
  | none => rw [hf] at h; exact absurd h (by simp)
  | some i =>
    rw [hf] at h
    have h' : (if productSortThrows (reportHeaders content) (retainedTransactions content) = true
        then Except.error (chars "TypeError: undefined title in by-product sort comparator")
        else Except.ok (buildReport
          (parseMetadata (reportLines content) (detectDelimiter content))
          (retainedTransactions content))) = Except.ok r := h
    by_cases ht : productSortThrows (reportHeaders content) (retainedTransactions content) = true
    · rw [if_pos ht] at h'
      exact absurd h' (by simp)
    · rw [if_neg ht] at h'
      cases h'
      rfl

theorem parse_error_iff (content : Str) :
    parseOk content = false ↔
      (findHeaderLine (reportLines content) = none ∨
        productSortThrows (reportHeaders content) (retainedTransactions content) = true) := by
  unfold parseOk parseAppleReport
  cases hf : findHeaderLine (reportLines content) with
  | none => simp
  | some i =>
    by_cases ht : productSortThrows (reportHeaders content) (retainedTransactions content) = true
    · simp [ht]
    · simp [ht]

theorem parseTransaction_eq_some {row headers : List Str} {t : Transaction}
    (h : parseTransaction row headers = some t) :
    t = decodeFields row headers ∧ t.countryOfSale ≠ [] ∧ t.partnerShareCurrency ≠ [] := by
  have h' : (if (decodeFields row headers).countryOfSale = [] ∨
      (decodeFields row headers).partnerShareCurrency = [] then none
      else some (decodeFields row headers)) = some t := h
  by_cases hc : (decodeFields row headers).countryOfSale = [] ∨
      (decodeFields row headers).partnerShareCurrency = []
  · rw [if_pos hc] at h'; cases h'
  · rw [if_neg hc] at h'
    cases h'
    push_neg at hc
    exact ⟨rfl, hc.1, hc.2⟩

theorem mem_retained {content : Str} {t : Transaction} :
    t ∈ retainedTransactions content ↔
      ∃ l ∈ dataLinesOf content,
        parseTransaction (splitOnChar (detectDelimiter content) l) (reportHeaders content) =
            some t ∧
          t.saleOrReturn = chars "S" := by
  unfold retainedTransactions
  rw [List.mem_filterMap]
  constructor
  · rintro ⟨l, hl, hf⟩
    cases hpt : parseTransaction (splitOnChar (detectDelimiter content) l)
        (reportHeaders content) with
    | none => rw [hpt] at hf; exact Option.noConfusion hf
    | some t' =>
      rw [hpt] at hf
      have hf' : (if t'.saleOrReturn = chars "S" then some t' else none) = some t := hf
      by_cases hS : t'.saleOrReturn = chars "S"
      · rw [if_pos hS] at hf'
        cases hf'
        exact ⟨l, hl, hpt, hS⟩
      · rw [if_neg hS] at hf'
        exact Option.noConfusion hf'
  · rintro ⟨l, hl, hpt, hS⟩
    refine ⟨l, hl, ?_⟩
    rw [hpt]
    show (if t.saleOrReturn = chars "S" then some t else none) = some t
    rw [if_pos hS]

theorem retained_length (content : Str) :
    (retainedTransactions content).length =
      (dataLinesOf content).countP (fun l =>
        decide
          ((decodeFields (splitOnChar (detectDelimiter content) l)
              (reportHeaders content)).countryOfSale ≠ [] ∧
            (decodeFields (splitOnChar (detectDelimiter content) l)
              (reportHeaders content)).partnerShareCurrency ≠ [] ∧
            (decodeFields (splitOnChar (detectDelimiter content) l)
              (reportHeaders content)).saleOrReturn = chars "S")) := by
  apply length_filterMap_eq_countP
  intro l _
  by_cases hc : (decodeFields (splitOnChar (detectDelimiter content) l)
      (reportHeaders content)).countryOfSale = [] ∨
      (decodeFields (splitOnChar (detectDelimiter content) l)
        (reportHeaders content)).partnerShareCurrency = []
  · have hpt : parseTransaction (splitOnChar (detectDelimiter content) l)
        (reportHeaders content) = none := by
      unfold parseTransaction
      rw [if_pos hc]
    simp only [hpt, Option.isSome_none]
    rcases hc with hc | hc <;> simp [hc]
  · have hpt : parseTransaction (splitOnChar (detectDelimiter content) l)
        (reportHeaders content) =
        some (decodeFields (splitOnChar (detectDelimiter content) l)
          (reportHeaders content)) := by
      unfold parseTransaction
      rw [if_neg hc]
    push_neg at hc
    simp only [hpt]
    by_cases hS : (decodeFields (splitOnChar (detectDelimiter content) l)
        (reportHeaders content)).saleOrReturn = chars "S"
    · simp [hS, hc.1, hc.2]
    · simp [hS]

/-! ## Helpers relating aggregate entries to spec-level group sums -/

theorem groupOf_head_exists {γ : Type} (key : γ → Str) {ts : List γ} {k : Str}
    (h : ∃ t ∈ ts, key t = k) :
    ∃ t₀ g, groupOf key ts k = t₀ :: g ∧ t₀ ∈ ts ∧ key t₀ = k := by
  rcases hgo : groupOf key ts k with _ | ⟨t₀, g⟩
  · rw [groupOf_eq_nil_iff] at hgo
    obtain ⟨t, ht, hkt⟩ := h
    exact absurd hkt (hgo t ht)
  · have hmem : t₀ ∈ groupOf key ts k := by rw [hgo]; simp
    have h2 := (mem_groupOf key).mp hmem
    exact ⟨t₀, g, rfl, h2.1, h2.2⟩

theorem ekey_entryOf {ts : List Transaction} {k : Str}
    (hk : k ∈ firstKeys countryKey ts) :
    ekey (entryOf countryKey countryInit countryMerge ts k) = k := by
  obtain ⟨t₀, g, hg, ht₀, hkey⟩ :=
    groupOf_head_exists countryKey (mem_firstKeys countryKey |>.mp hk)
  rw [entryOf_country hg]
  exact hkey

theorem country_entry_currency (ts : List Transaction)
    (hinj : ∀ t₁ ∈ ts, ∀ t₂ ∈ ts, countryKey t₁ = countryKey t₂ →
      t₁.countryOfSale = t₂.countryOfSale ∧ t₁.partnerShareCurrency = t₂.partnerShareCurrency)
    {k : Str} (hk : k ∈ firstKeys countryKey ts) :
    ∀ t ∈ ts, countryKey t = k →
      t.partnerShareCurrency = (entryOf countryKey countryInit countryMerge ts k).currency := by
  intro t ht hkey
  obtain ⟨t₀, g, hg, ht₀, hk₀⟩ :=
    groupOf_head_exists countryKey (mem_firstKeys countryKey |>.mp hk)
  rw [entryOf_country hg]
  exact (hinj t ht t₀ ht₀ (by rw [hkey, hk₀])).2

theorem sum_map_filter_eq {γ δ M : Type} [AddCommMonoid M] (g : γ → δ) (p : δ → Bool)
    (fe : δ → M) (l : List γ) :
    (((l.map g).filter p).map fe).sum =
      (l.map (fun x => if p (g x) = true then fe (g x) else 0)).sum := by
  induction l with
  | nil => rfl
  | cons a l ih =>
    by_cases hp : p (g a) = true
    · rw [List.map_cons,
        show (g a :: l.map g).filter p = g a :: (l.map g).filter p by
          simp [List.filter_cons, hp],
        List.map_cons, List.sum_cons, ih, List.map_cons, List.sum_cons, if_pos hp]
    · rw [List.map_cons,
        show (g a :: l.map g).filter p = (l.map g).filter p by
          simp [List.filter_cons, hp],
        ih, List.map_cons, List.sum_cons, if_neg hp, zero_add]

theorem byCountry_filter_sum {M : Type} [AddCommMonoid M] (ts : List Transaction)
    (hinj : ∀ t₁ ∈ ts, ∀ t₂ ∈ ts, countryKey t₁ = countryKey t₂ →
      t₁.countryOfSale = t₂.countryOfSale ∧ t₁.partnerShareCurrency = t₂.partnerShareCurrency)
    (k : Str) (f : Transaction → M) (fe : CountryBreakdown → M)
    (hfe : ∀ k' ∈ firstKeys countryKey ts,
      fe (entryOf countryKey countryInit countryMerge ts k') =
        ((groupOf countryKey ts k').map f).sum) :
    (((aggregateByCountry ts).filter (fun c => decide (c.currency = k))).map fe).sum =
      ((ts.filter (fun t => decide (t.partnerShareCurrency = k))).map f).sum := by
  have hperm := aggregateByCountry_perm ts
  have hperm2 :=
    (hperm.filter (fun c => decide (c.currency = k))).map fe
  rw [hperm2.sum_eq, sum_map_filter_eq]
  have hcongr : (firstKeys countryKey ts).map
      (fun k' =>
        if decide ((entryOf countryKey countryInit countryMerge ts k').currency = k) = true
        then fe (entryOf countryKey countryInit countryMerge ts k') else 0) =
      (firstKeys countryKey ts).map
        (fun k' =>
          (((ts.filter (fun t => decide (t.partnerShareCurrency = k))).filter
              (fun t => decide (countryKey t = k'))).map f).sum) := by
    apply mapCongrOn
    intro k' hk'
    dsimp only
    by_cases hcond : (entryOf countryKey countryInit countryMerge ts k').currency = k
    · rw [if_pos (by simpa using hcond), hfe k' hk']
      have hgroups : groupOf countryKey ts k' =
          (ts.filter (fun t => decide (t.partnerShareCurrency = k))).filter
            (fun t => decide (countryKey t = k')) := by
        rw [List.filter_filter]
        unfold groupOf
        apply List.filter_congr
        intro t ht
        by_cases hkt : countryKey t = k'
        · have hcur : t.partnerShareCurrency = k :=
            (country_entry_currency ts hinj hk' t ht hkt).trans hcond
          simp [hkt, hcur]
        · simp [hkt]
      rw [hgroups]
    · rw [if_neg (by simpa using hcond)]
      have hempty : (ts.filter (fun t => decide (t.partnerShareCurrency = k))).filter
          (fun t => decide (countryKey t = k')) = [] := by
        rw [List.filter_filter, List.filter_eq_nil_iff]
        intro t ht
        simp only [Bool.and_eq_true, decide_eq_true_eq, not_and]
        intro hkt hcur
        exact hcond ((country_entry_currency ts hinj hk' t ht hkt).symm.trans hcur)
      rw [hempty]
      simp
  rw [hcongr,
    sum_groups countryKey (firstKeys countryKey ts) (nodup_firstKeys countryKey ts)
      (ts.filter (fun t => decide (t.partnerShareCurrency = k))) f
      (fun t ht => mem_firstKeys countryKey |>.mpr ⟨t, (List.mem_filter.mp ht).1, rfl⟩)]

theorem byCurrency_entry (ts : List Transaction) {e : CurrencySummary}
    (he : e ∈ aggregateByCurrency ts) :
    e.totalProceeds =
        ((ts.filter (fun t => decide (t.partnerShareCurrency = e.currency))).map
          (fun t => t.extendedPartnerShare)).sum ∧
      e.totalQuantity =
        ((ts.filter (fun t => decide (t.partnerShareCurrency = e.currency))).map
          (fun t => t.quantity)).sum ∧
      ∃ t ∈ ts, t.partnerShareCurrency = e.currency := by
  have hperm := aggregateByCurrency_perm ts
  obtain ⟨k, hk, hek⟩ := List.mem_map.mp (hperm.mem_iff.mp he)
  obtain ⟨t₀, g, hg, ht₀, hk₀⟩ :=
    groupOf_head_exists (fun t : Transaction => t.partnerShareCurrency)
      (mem_firstKeys (fun t : Transaction => t.partnerShareCurrency) |>.mp hk)
  have hfields := entryOf_currency hg
  have hcur : e.currency = k := by
    rw [← hek, hfields]
    exact hk₀
  have hp : e.totalProceeds =
      ((groupOf (fun t => t.partnerShareCurrency) ts k).map
        (fun t => t.extendedPartnerShare)).sum := by
    rw [← hek, hfields, hg]
  have hq : e.totalQuantity =
      ((groupOf (fun t => t.partnerShareCurrency) ts k).map (fun t => t.quantity)).sum := by
    rw [← hek, hfields, hg]
  refine ⟨?_, ?_, ⟨t₀, ht₀, by rw [hcur]; exact hk₀⟩⟩
  · rw [hcur]; exact hp
  · rw [hcur]; exact hq

theorem byCountry_currency_mem (ts : List Transaction) {c : CountryBreakdown}
    (hc : c ∈ aggregateByCountry ts) :
    ∃ e ∈ aggregateByCurrency ts, e.currency = c.currency := by
  have hperm := aggregateByCountry_perm ts
  obtain ⟨k, hk, hek⟩ := List.mem_map.mp (hperm.mem_iff.mp hc)
  obtain ⟨t₀, g, hg, ht₀, hk₀⟩ :=
    groupOf_head_exists countryKey (mem_firstKeys countryKey |>.mp hk)
  have hccur : c.currency = t₀.partnerShareCurrency := by
    rw [← hek, entryOf_country hg]
  have hkq : t₀.partnerShareCurrency ∈ firstKeys (fun t : Transaction => t.partnerShareCurrency) ts :=
    mem_firstKeys (fun t : Transaction => t.partnerShareCurrency) |>.mpr ⟨t₀, ht₀, rfl⟩
  have hmem : entryOf (fun t => t.partnerShareCurrency) currencyInit currencyMerge ts
      t₀.partnerShareCurrency ∈ aggregateByCurrency ts := by
    rw [(aggregateByCurrency_perm ts).mem_iff]
    exact List.mem_map.mpr ⟨_, hkq, rfl⟩
  refine ⟨_, hmem, ?_⟩
  obtain ⟨t₀', g', hg', ht₀', hk₀'⟩ :=
    groupOf_head_exists (fun t : Transaction => t.partnerShareCurrency)
      (mem_firstKeys (fun t : Transaction => t.partnerShareCurrency) |>.mp hkq)
  rw [entryOf_currency hg', hccur]
  exact hk₀'

/-! ## The claims -/

/-- C4: `detectDelimiter` returns tab exactly when the tab count across the
first five physical lines strictly exceeds the comma count, and comma
otherwise; empty input yields comma, and the function is total (it always
returns one of the two delimiters). -/
theorem claim_C4 (s : Str) :
    (detectDelimiter s = '\t' ↔
      (delimScanSlice s).count ',' < (delimScanSlice s).count '\t') ∧
    (detectDelimiter s = '\t' ∨ detectDelimiter s = ',') ∧
    detectDelimiter [] = ',' := by
  refine ⟨?_, ?_, rfl⟩
  · unfold detectDelimiter
    by_cases h : (delimScanSlice s).count ',' < (delimScanSlice s).count '\t'
    · simp [h]
    · simp [h]
  · unfold detectDelimiter
    by_cases h : (delimScanSlice s).count ',' < (delimScanSlice s).count '\t' <;> simp [h]

theorem claim_C4_witness :
    detectDelimiter exC4 = '\t' ∧ detectDelimiter [] = ',' :=
  ⟨(claim_C4 exC4).1.mpr (by decide), (claim_C4 []).2.2⟩

/-- C2: the summary scan returns the largest index whose line satisfies the
summary condition (trimmed line starts with `Country Of Sale` or
`Country of Sale` and splits into at most five fields); when no line
satisfies it, it returns the total line count. -/
theorem claim_C2 (lines : List Str) (d : Char) :
    (findSummaryLine lines d = lines.length ∨
      (findSummaryLine lines d < lines.length ∧
        summaryLineCond d (lines.getD (findSummaryLine lines d) []) = true)) ∧
    (∀ j, j < lines.length → summaryLineCond d (lines.getD j []) = true →
      j ≤ findSummaryLine lines d ∧ findSummaryLine lines d < lines.length) := by
  have h := findSummaryAux_spec lines d lines.length le_rfl
  unfold findSummaryLine
  rcases h with ⟨heq, hall⟩ | ⟨hlt, hcond, hmax⟩
  · refine ⟨Or.inl heq, ?_⟩
    intro j hj hcondj
    exact absurd hcondj (by simpa using hall j hj)
  · refine ⟨Or.inr ⟨by omega, hcond⟩, ?_⟩
    intro j hj hcondj
    refine ⟨?_, by omega⟩
    by_contra hlt2
    push_neg at hlt2
    exact absurd hcondj (by simpa using hmax j (by omega) hj)

theorem claim_C2_witness :
    1 ≤ findSummaryLine exC2 ',' ∧ findSummaryLine exC2 ',' < exC2.length :=
  (claim_C2 exC2 ',').2 1 (by decide) (by decide)

/-- C3 (counterexample to the claim as stated): in `exC3cex` the header
scan finds the header at index 0, yet `parseAppleReport` raises: the
header maps no Title column and two distinct SKUs are retained, so the
by-product sort comparator is invoked on an undefined title and throws —
an error despite a header being present, refuting the claimed
"if and only if". -/
theorem claim_C3_cex :
    (findHeaderLine (reportLines exC3cex)).isSome = true ∧ parseOk exC3cex = false := by
  constructor
  · decide
  · with_unfolding_all decide

/-- C3 (amended): `parseAppleReport` raises an error — and produces no
partial report — if and only if either none of the first ten non-blank
lines contains both literal substrings `Transaction Date` and
`Country of Sale`, or the located header maps no Title column while at
least two product entries remain to be sorted (the by-product sort then
throws on the undefined title); when a header line exists within the
window, the first one is taken as the transaction header line. -/
theorem claim_C3_amended (content : Str) :
    (parseOk content = false ↔
      ((∀ l ∈ (reportLines content).take 10, headerLineCond l = false) ∨
        productSortThrows (reportHeaders content) (retainedTransactions content) = true)) ∧
    (∀ i, findHeaderLine (reportLines content) = some i →
      headerLineCond ((reportLines content).getD i []) = true ∧
      ∀ j < i, headerLineCond ((reportLines content).getD j []) = false) := by
  constructor
  · rw [parse_error_iff]
    exact or_congr findFirstHeader_eq_none Iff.rfl
  · intro i hi
    obtain ⟨hlen, hcond, hmin⟩ := findFirstHeader_eq_some hi
    have h10 : ((reportLines content).take 10).length ≤ 10 := by
      rw [List.length_take]
      exact Nat.min_le_left _ _
    constructor
    · rw [← getD_take (reportLines content) 10 i [] (by omega)]
      exact hcond
    · intro j hj
      rw [← getD_take (reportLines content) 10 j [] (by omega)]
      exact hmin j hj

theorem claim_C3_amended_witness :
    headerLineCond ((reportLines exC3).getD 1 []) = true ∧
      headerLineCond ((reportLines exC3).getD 0 []) = false ∧
      parseOk exC3 = true :=
  ⟨((claim_C3_amended exC3).2 1 (by decide)).1,
    ((claim_C3_amended exC3).2 1 (by decide)).2 0 (by decide),
    by with_unfolding_all decide⟩

/-- C8: in row decoding, a quantity cell whose `parseInt` fails coerces to
the integer 0, a monetary cell whose `parseFloat` fails coerces to 0, a
missing cell reads as the empty string (which fails both parses), and a
numeric failure never drops the row: the only way `parseTransaction`
rejects a row is an empty decoded country or currency. -/
theorem claim_C8 :
    (∀ v : Str, jsParseInt v = none → coerceQty v = 0) ∧
    (∀ v : Str, jsParseFloat v = none → coerceMoney v = 0) ∧
    jsParseInt (cellValue [] 0) = none ∧ jsParseFloat (cellValue [] 0) = none ∧
    (∀ row headers : List Str, parseTransaction row headers = none →
      (decodeFields row headers).countryOfSale = [] ∨
        (decodeFields row headers).partnerShareCurrency = []) := by
  refine ⟨?_, ?_, rfl, rfl, ?_⟩
  · intro v h; simp [coerceQty, h]
  · intro v h; simp [coerceMoney, h]
  · intro row headers h
    by_cases hc : (decodeFields row headers).countryOfSale = [] ∨
        (decodeFields row headers).partnerShareCurrency = []
    · exact hc
    · exfalso
      have h' : (if (decodeFields row headers).countryOfSale = [] ∨
          (decodeFields row headers).partnerShareCurrency = [] then none
          else some (decodeFields row headers)) = (none : Option Transaction) := h
      rw [if_neg hc] at h'
      exact Option.noConfusion h'

theorem claim_C8_witness :
    coerceQty (chars "abc") = 0 ∧ coerceMoney (chars "zz") = 0 :=
  ⟨claim_C8.1 (chars "abc") (by decide), claim_C8.2.1 (chars "zz") (by decide)⟩

/-- C10 (counterexample to the claim as stated): `exC10cex` is an input
whose header scan succeeds, yet `parseAppleReport` raises — the header
maps no Title column and its two retained rows carry distinct SKUs, so
the by-product sort throws on the undefined title. A found header does
not guarantee an error-free parse. -/
theorem claim_C10_cex :
    (findHeaderLine (reportLines exC10cex)).isSome = true ∧ parseOk exC10cex = false := by
  constructor
  · decide
  · with_unfolding_all decide

/-- C10 (amended): whenever the header scan finds a header line and the
by-product sort does not throw (the header maps a Title column, or fewer
than two product entries remain), `parseAppleReport` returns a report
without raising any error — required columns are never checked by the
parser itself — and a data cell beyond the row's length reads as the
empty string. -/
theorem claim_C10_amended :
    (∀ content : Str, (findHeaderLine (reportLines content)).isSome = true →
      productSortThrows (reportHeaders content) (retainedTransactions content) = false →
      parseOk content = true) ∧
    (∀ (row : List Str) (i : Nat), row.length ≤ i → cellValue row i = []) := by
  constructor
  · intro content h hthrow
    unfold parseOk parseAppleReport
    cases hf : findHeaderLine (reportLines content) with
    | none => rw [hf] at h; exact absurd h (by simp)
    | some i => simp [hthrow]
  · intro row i h
    unfold cellValue
    rw [List.getD_eq_default _ _ h]
    rfl

set_option maxRecDepth 4000 in
theorem claim_C10_amended_witness :
    parseOk exC10 = true ∧ (parsedOr exC10).transactions.length = 0 ∧
      (validateReport exC10 ',').valid = false ∧ cellValue [chars "a"] 5 = [] :=
  ⟨claim_C10_amended.1 exC10 (by decide) (by with_unfolding_all decide),
    by with_unfolding_all decide, by decide,
    claim_C10_amended.2 [chars "a"] 5 (by decide)⟩

/-- C5: in every successfully parsed report, every retained transaction is
a sale row (indicator `S`), and all three aggregates are computed from
exactly that retained list, so return rows reach neither the transaction
list nor any aggregate. -/
theorem claim_C5 {content : Str} {r : ParsedReport}
    (h : parseAppleReport content = Except.ok r) :
    (∀ t ∈ r.transactions, t.saleOrReturn = chars "S") ∧
    r.summary.byCountry = aggregateByCountry r.transactions ∧
    r.summary.byProduct = aggregateByProduct r.transactions ∧
    r.summary.byCurrency = aggregateByCurrency r.transactions := by
  have hr := parse_ok_eq h
  subst hr
  refine ⟨?_, rfl, rfl, rfl⟩
  intro t ht
  obtain ⟨l, hl, hpt, hS⟩ := mem_retained.mp ht
  exact hS

theorem claim_C5_witness :
    (parsedOr exC5).summary.byCurrency = aggregateByCurrency (parsedOr exC5).transactions ∧
      ((parsedOr exC5).transactions.getD 0 default).saleOrReturn = chars "S" ∧
      (parsedOr exC5).transactions.length = 2 := by
  have h : parseAppleReport exC5 = Except.ok (parsedOr exC5) := by with_unfolding_all rfl
  refine ⟨(claim_C5 h).2.2.2, (claim_C5 h).1 _ ?_, ?_⟩
  · with_unfolding_all decide
  · with_unfolding_all decide

/-- C6: every transaction of a successfully parsed report has a non-empty
country of sale and a non-empty partner share currency; rows decoding to
an empty value in either field are silently dropped. -/
theorem claim_C6 {content : Str} {r : ParsedReport}
    (h : parseAppleReport content = Except.ok r) :
    ∀ t ∈ r.transactions, t.countryOfSale ≠ [] ∧ t.partnerShareCurrency ≠ [] := by
  have hr := parse_ok_eq h
  subst hr
  intro t ht
  obtain ⟨l, hl, hpt, hS⟩ := mem_retained.mp ht
  obtain ⟨-, h1, h2⟩ := parseTransaction_eq_some hpt
  exact ⟨h1, h2⟩

theorem claim_C6_witness :
    parseOk exC6 = true ∧ (parsedOr exC6).transactions.length = 2 ∧
      ((parsedOr exC6).transactions.getD 0 default).countryOfSale ≠ [] ∧
      (parsedOr exC6).summary.byCountry.map (fun e => (e.countryOfSale, e.quantity)) =
        [(chars "DE", 5), (chars "US", 2)] := by
  have h : parseAppleReport exC6 = Except.ok (parsedOr exC6) := by with_unfolding_all rfl
  refine ⟨by decide, by with_unfolding_all decide, (claim_C6 h _ ?_).1, ?_⟩
  · with_unfolding_all decide
  · with_unfolding_all decide

/-- C9: in every successfully parsed report, `totalTransactions` equals the
length of the transaction list, which equals the count of data-region
lines that decode to a non-empty country and currency and carry the sale
indicator `S`. -/
theorem claim_C9 {content : Str} {r : ParsedReport}
    (h : parseAppleReport content = Except.ok r) :
    r.summary.totalTransactions = r.transactions.length ∧
    r.transactions.length =
      (dataLinesOf content).countP (fun l =>
        decide
          ((decodeFields (splitOnChar (detectDelimiter content) l)
              (reportHeaders content)).countryOfSale ≠ [] ∧
            (decodeFields (splitOnChar (detectDelimiter content) l)
              (reportHeaders content)).partnerShareCurrency ≠ [] ∧
            (decodeFields (splitOnChar (detectDelimiter content) l)
              (reportHeaders content)).saleOrReturn = chars "S")) := by
  have hr := parse_ok_eq h
  subst hr
  exact ⟨rfl, retained_length content⟩

set_option maxRecDepth 4000 in
theorem claim_C9_witness :
    (parsedOr exC9).summary.totalTransactions = (parsedOr exC9).transactions.length ∧
      (parsedOr exC9).summary.totalTransactions = 2 ∧ (dataLinesOf exC9).length = 4 := by
  have h : parseAppleReport exC9 = Except.ok (parsedOr exC9) := by with_unfolding_all rfl
  refine ⟨(claim_C9 h).1, ?_, ?_⟩
  · with_unfolding_all decide
  · decide

/-- C7 (counterexample to the claim as stated): two retained transactions
with distinct (country, currency) pairs — (X-Y, Z) and (X, Y-Z) — share
the dash-joined grouping key, so the byCountry aggregate conflates them
into a single entry instead of one entry per distinct pair. -/
theorem claim_C7_cex :
    (([exC7a, exC7b].map
        (fun t => (t.countryOfSale, t.partnerShareCurrency))).dedup).length = 2 ∧
      (aggregateByCountry [exC7a, exC7b]).length = 1 ∧
      countryKey exC7a = countryKey exC7b ∧
      (exC7a.countryOfSale, exC7a.partnerShareCurrency) ≠
        (exC7b.countryOfSale, exC7b.partnerShareCurrency) := by
  refine ⟨by decide, ?_, by decide, by decide⟩
  with_unfolding_all decide

/-- C7 (amended): the byCountry aggregate has exactly one entry per
distinct dash-joined key string `countryOfSale ++ "-" ++
partnerShareCurrency` occurring among the transactions (distinct pairs
whose joined keys coincide are conflated into that one entry), each entry
holds the sums of quantity and extendedPartnerShare over the transactions
sharing its key, and the result is sorted ascending by country name. -/
theorem claim_C7_amended (ts : List Transaction) :
    ((aggregateByCountry ts).map ekey).Nodup ∧
    (∀ k, k ∈ (aggregateByCountry ts).map ekey ↔ ∃ t ∈ ts, countryKey t = k) ∧
    (∀ e ∈ aggregateByCountry ts,
      e.quantity =
          ((ts.filter (fun t => decide (countryKey t = ekey e))).map
            (fun t => t.quantity)).sum ∧
        e.proceeds =
          ((ts.filter (fun t => decide (countryKey t = ekey e))).map
            (fun t => t.extendedPartnerShare)).sum) ∧
    (aggregateByCountry ts).Sorted countryLE := by
  have hperm := aggregateByCountry_perm ts
  have hmap : ((firstKeys countryKey ts).map
      (fun k => entryOf countryKey countryInit countryMerge ts k)).map ekey =
      firstKeys countryKey ts := by
    rw [List.map_map]
    have hpt : (firstKeys countryKey ts).map
        (ekey ∘ fun k => entryOf countryKey countryInit countryMerge ts k) =
        (firstKeys countryKey ts).map id :=
      mapCongrOn (fun k hk => ekey_entryOf hk)
    rw [hpt, List.map_id]
  have hperm2 : ((aggregateByCountry ts).map ekey).Perm (firstKeys countryKey ts) := by
    have := hperm.map ekey
    rwa [hmap] at this
  refine ⟨?_, ?_, ?_, ?_⟩
  · exact hperm2.nodup_iff.mpr (nodup_firstKeys countryKey ts)
  · intro k
    rw [hperm2.mem_iff]
    exact mem_firstKeys countryKey
  · intro e he
    obtain ⟨k, hk, hek⟩ := List.mem_map.mp (hperm.mem_iff.mp he)
    obtain ⟨t₀, g, hg, ht₀, hk₀⟩ :=
      groupOf_head_exists countryKey (mem_firstKeys countryKey |>.mp hk)
    have hekey : ekey e = k := by rw [← hek]; exact ekey_entryOf hk
    have hfilter : ts.filter (fun t => decide (countryKey t = ekey e)) = t₀ :: g := by
      rw [hekey]
      exact hg
    constructor
    · rw [hfilter, ← hek, entryOf_country hg]
    · rw [hfilter, ← hek, entryOf_country hg]
  · exact List.sorted_insertionSort countryLE _

theorem claim_C7_amended_witness :
    ((aggregateByCountry [exC7a, exC7b]).getD 0 default).quantity =
        (([exC7a, exC7b].filter
            (fun t => decide (countryKey t =
              ekey ((aggregateByCountry [exC7a, exC7b]).getD 0 default)))).map
          (fun t => t.quantity)).sum ∧
      ((aggregateByCountry [exC7a, exC7b]).getD 0 default).quantity = 3 := by
  refine ⟨((claim_C7_amended [exC7a, exC7b]).2.2.1 _ ?_).1, ?_⟩
  · with_unfolding_all decide
  · with_unfolding_all decide

/-- Reconciliation at the transaction-list level, under injectivity of the
dash-joined grouping key on the (country, currency) pairs present. -/
theorem reconcile_list (ts : List Transaction)
    (hinj : ∀ t₁ ∈ ts, ∀ t₂ ∈ ts, countryKey t₁ = countryKey t₂ →
      t₁.countryOfSale = t₂.countryOfSale ∧ t₁.partnerShareCurrency = t₂.partnerShareCurrency) :
    (∀ c ∈ aggregateByCountry ts, ∃ e ∈ aggregateByCurrency ts, e.currency = c.currency) ∧
    (∀ e ∈ aggregateByCurrency ts,
      (((aggregateByCountry ts).filter (fun c => decide (c.currency = e.currency))).map
          (fun c => c.proceeds)).sum = e.totalProceeds ∧
        (((aggregateByCountry ts).filter (fun c => decide (c.currency = e.currency))).map
          (fun c => c.quantity)).sum = e.totalQuantity) := by
  have hfeP : ∀ k' ∈ firstKeys countryKey ts,
      (fun c : CountryBreakdown => c.proceeds)
          (entryOf countryKey countryInit countryMerge ts k') =
        ((groupOf countryKey ts k').map (fun t => t.extendedPartnerShare)).sum := by
    intro k' hk'
    obtain ⟨t₀, g, hg, -, -⟩ :=
      groupOf_head_exists countryKey (mem_firstKeys countryKey |>.mp hk')
    dsimp only
    rw [entryOf_country hg, hg]
  have hfeQ : ∀ k' ∈ firstKeys countryKey ts,
      (fun c : CountryBreakdown => c.quantity)
          (entryOf countryKey countryInit countryMerge ts k') =
        ((groupOf countryKey ts k').map (fun t => t.quantity)).sum := by
    intro k' hk'
    obtain ⟨t₀, g, hg, -, -⟩ :=
      groupOf_head_exists countryKey (mem_firstKeys countryKey |>.mp hk')
    dsimp only
    rw [entryOf_country hg, hg]
  refine ⟨fun c hc => byCountry_currency_mem ts hc, ?_⟩
  intro e he
  obtain ⟨hp, hq, -⟩ := byCurrency_entry ts he
  constructor
  · rw [byCountry_filter_sum ts hinj e.currency (fun t => t.extendedPartnerShare)
      (fun c => c.proceeds) hfeP, hp]
  · rw [byCountry_filter_sum ts hinj e.currency (fun t => t.quantity)
      (fun c => c.quantity) hfeQ, hq]

/-- C1 (counterexample to the claim as stated): in the parsed report of
`exC1`, the currency `C` appears in the output with byCurrency total 10,
but the byCountry entries carrying currency `C` sum to 30, because the
rows (A-B, C) and (A, B-C) collide on the dash-joined grouping key and
are merged into one byCountry entry labelled with currency `C`. -/
theorem claim_C1_cex :
    parseOk exC1 = true ∧
      (parsedOr exC1).summary.byCurrency.map (fun e => (e.currency, e.totalProceeds)) =
        [(chars "B-C", 20), (chars "C", 10)] ∧
      ((((parsedOr exC1).summary.byCountry.filter
            (fun c => decide (c.currency = chars "C"))).map (fun c => c.proceeds)).sum =
        (30 : Rat)) := by
  refine ⟨by decide, ?_, ?_⟩ <;> with_unfolding_all decide

/-- C1 (amended): for every successfully parsed report in which distinct
(country, currency) pairs of retained transactions never collide on the
dash-joined grouping key, the aggregates reconcile: every byCountry
currency appears in byCurrency, and for each byCurrency entry the sums of
proceeds and quantities over the byCountry entries of that currency equal
its totals. -/
theorem claim_C1_amended {content : Str} {r : ParsedReport}
    (h : parseAppleReport content = Except.ok r)
    (hinj : ∀ t₁ ∈ r.transactions, ∀ t₂ ∈ r.transactions,
      countryKey t₁ = countryKey t₂ →
        t₁.countryOfSale = t₂.countryOfSale ∧
          t₁.partnerShareCurrency = t₂.partnerShareCurrency) :
    (∀ c ∈ r.summary.byCountry, ∃ e ∈ r.summary.byCurrency, e.currency = c.currency) ∧
    (∀ e ∈ r.summary.byCurrency,
      ((r.summary.byCountry.filter (fun c => decide (c.currency = e.currency))).map
          (fun c => c.proceeds)).sum = e.totalProceeds ∧
        ((r.summary.byCountry.filter (fun c => decide (c.currency = e.currency))).map
          (fun c => c.quantity)).sum = e.totalQuantity) := by
  have hr := parse_ok_eq h
  subst hr
  exact reconcile_list (retainedTransactions content) hinj

set_option maxRecDepth 4000 in
theorem claim_C1_amended_witness :
    (((parsedOr exAcme).summary.byCountry.filter
          (fun c => decide (c.currency =
            ((parsedOr exAcme).summary.byCurrency.getD 0 default).currency))).map
        (fun c => c.proceeds)).sum =
      ((parsedOr exAcme).summary.byCurrency.getD 0 default).totalProceeds := by
  have h : parseAppleReport exAcme = Except.ok (parsedOr exAcme) := by
    with_unfolding_all rfl
  exact ((claim_C1_amended h (by with_unfolding_all decide)).2 _
    (by with_unfolding_all decide)).1
